import Mathlib

/-!
Shallow embedding of the Ansible `zipfile` module (`src/library/zipfile.py`)
and proofs about its behaviour.

The module body is `run_module` (lines 122-204 of the source).  The embedding
models the process state (home directory, current working directory, file
system) explicitly and threads it through.  File contents are abstract blobs;
a written ZIP archive is recorded as the list of `(entry name, source path)`
pairs passed to `zipfile.ZipFile.write`, in write order.  The archive write
itself is fallible, as in the source: the `with zipfile.ZipFile(...)` block
at lines 197-200 has no `try/except`, so an `OSError` raised while creating
the archive (write permission denied by the environment) or while writing an
entry (source path that does not resolve) escapes `run_module` uncaught, as
a bare traceback that carries no result record.
-/

set_option autoImplicit false

namespace ZipModule

/-- A file-system object: a regular file or directory with abstract content,
or a ZIP archive as produced by the module (the `(arcname, source path)`
pairs written into it, in order). -/
inductive Entry where
  | blob (data : String)
  | zipArchive (entries : List (String × String))
deriving DecidableEq

/-- Process state: invoking user's home directory, current working directory,
the file system as an association list from absolute paths to entries, and
the set of absolute paths the environment refuses to open for writing
(unwritable directory, read-only file system, ...) — attempting to create a
file there raises `OSError`. -/
structure Sys where
  home : String
  cwd : String
  files : List (String × Entry)
  writeDenied : List String
deriving DecidableEq

/-- The module parameters as delivered by the argument layer.  `compress_level`
is declared with argument type `str` (line 130), so it always arrives as a
string. -/
structure Params where
  paths : List String
  filename : String
  chdir : Option String
  compress_level : String
  flatten : Bool
  force : Bool
deriving DecidableEq

/-- The `result` dictionary built at lines 152-160: the `changed` flag plus an
echo of the (resolved) input parameters. -/
structure ModuleResult where
  changed : Bool
  paths : List String
  filename : String
  chdir : Option String
  compress_level : String
  flatten : Bool
  force : Bool
deriving DecidableEq

/-- How the module run terminates: `module.exit_json(**result)` (success),
`module.fail_json(msg=..., **result)` (reported error), or an exception that
escapes `run_module` uncaught — surfaced as a bare traceback message that
carries neither the echoed parameter record nor a `changed` report. -/
inductive Outcome where
  | exitJson (r : ModuleResult)
  | failJson (msg : String) (r : ModuleResult)
  | traceback (msg : String)
deriving DecidableEq

/-- Whether a module exit delivers the result record (the `changed` flag and
the echoed parameters): `exit_json` and `fail_json` do, an uncaught
exception does not. -/
def carriesResult : Outcome → Bool
  | Outcome.exitJson _ => true
  | Outcome.failJson _ _ => true
  | Outcome.traceback _ => false

/-- `os.path.expanduser` for the invoking user's marker: `~` alone or a
leading `~/` is replaced by the home directory; anything else is returned
unchanged. -/
def expanduser (home p : String) : String :=
  match p.data with
  | ['~'] => home
  | '~' :: '/' :: rest => home ++ String.mk ('/' :: rest)
  | _ => p

/-- Resolve a path against the current working directory: absolute paths
(leading slash) stand as given, relative paths are joined to `cwd`. -/
def resolvePath (sys : Sys) (p : String) : String :=
  match p.data with
  | '/' :: _ => p
  | _ => sys.cwd ++ "/" ++ p

/-- Look up an absolute path in the file system. -/
def fsLookup : List (String × Entry) → String → Option Entry
  | [], _ => none
  | kv :: rest, p => if kv.1 = p then some kv.2 else fsLookup rest p

/-- Create or overwrite the file at an absolute path. -/
def fsWrite : List (String × Entry) → String → Entry → List (String × Entry)
  | [], p, e => [(p, e)]
  | kv :: rest, p, e => if kv.1 = p then (p, e) :: rest else kv :: fsWrite rest p e

/-- `os.path.exists`, relative paths resolved against the current working
directory. -/
def osExists (sys : Sys) (p : String) : Bool :=
  (fsLookup sys.files (resolvePath sys p)).isSome

/-- `os.chdir`: succeeds exactly when the target exists, changing only `cwd`;
otherwise raises, carrying the underlying system error text. -/
def osChdir (sys : Sys) (p : String) : Except String Sys :=
  if osExists sys p then Except.ok { sys with cwd := resolvePath sys p }
  else Except.error ("[Errno 2] No such file or directory: \x27" ++ p ++ "\x27")

/-- Python `path.lstrip` with a slash argument (line 186): drop every leading
slash character. -/
def lstripSlash (p : String) : String :=
  String.mk (p.data.dropWhile (fun c => c = '/'))

/-- POSIX `os.path.basename` (line 182): the suffix of the path after its
last slash. -/
def basename (p : String) : String :=
  String.mk (p.data.foldl (fun acc c => if c = '/' then [] else acc ++ [c]) [])

/-- Python dict assignment `d[k] = v` on an association list whose keys are
unique: overwrite the value in place if the key is present, else append. -/
def dictInsert : List (String × String) → String → String → List (String × String)
  | [], k, v => [(k, v)]
  | kv :: rest, k, v => if kv.1 = k then (k, v) :: rest else kv :: dictInsert rest k v

/-- `COMPRESS_MAPPING` (lines 108-113). -/
def COMPRESS_MAPPING : List (String × Int) :=
  [("default", -1), ("none", 0), ("fast", 1), ("best", 9)]

/-- `COMPRESS_CHOICES` (lines 115-118): the values the argument layer accepts
for `compress_level`. -/
def COMPRESS_CHOICES : List String :=
  ["default", "none", "fast", "best",
   "-1", "0", "1", "2", "3", "4", "5", "6", "7", "8", "9"]

/-- Lines 190-195.  `compress_level` reaches this code as a `str` value, so
`isinstance(compress_level, int)` is always false and the `int(...)`
conversion branch is unreachable: every value outside `COMPRESS_MAPPING`
takes the `fail_json` branch. -/
def resolve_compress_level (s : String) : Except String Int :=
  match COMPRESS_MAPPING.find? (fun kv => kv.1 = s) with
  | some kv => Except.ok kv.2
  | none => Except.error ("incorrect value for \x27compress_level\x27 option: " ++ s)

/-- The loop at lines 173-186: for each source path, fail if it does not
exist (checked on the path as given), otherwise home-expand it and record
`archive_paths[path] = basename(path)` when flattening, else
`archive_paths[path] = path.lstrip(slash)`. -/
def processPaths (sys : Sys) (flatten : Bool) :
    List String → List (String × String) → Except String (List (String × String))
  | [], acc => Except.ok acc
  | path :: rest, acc =>
    if osExists sys path then
      processPaths sys flatten rest
        (dictInsert acc (expanduser sys.home path)
          (if flatten then basename (expanduser sys.home path)
           else lstripSlash (expanduser sys.home path)))
    else Except.error ("path does not exist: " ++ path)

/-- Python truthiness of the optional `chdir` string: `None` and the empty
string are falsy. -/
def truthy : Option String → Bool
  | none => false
  | some s => s != ""

/-- Lines 149-150: `chdir` is home-expanded only when truthy. -/
def chdirTarget (p : Params) (sys : Sys) : Option String :=
  if truthy p.chdir then some (expanduser sys.home (p.chdir.getD "")) else p.chdir

/-- Lines 147-160: the `result` dictionary, echoing the raw `paths`, the
home-expanded `filename` and `chdir`, and the remaining parameters, with
`changed` initialised to false. -/
def mkResult (p : Params) (sys : Sys) : ModuleResult :=
  { changed := false
    paths := p.paths
    filename := expanduser sys.home p.filename
    chdir := chdirTarget p sys
    compress_level := p.compress_level
    flatten := p.flatten
    force := p.force }

/-- The write loop at lines 199-200: each `zipped_file.write(path, arcname)`
appends one `(arcname, source path)` entry to the archive, or raises
`FileNotFoundError` when its source path does not resolve, reporting the
entries already written at that point. -/
def zipWriteLoop (sys : Sys) :
    List (String × String) → List (String × String) →
    Except (String × List (String × String)) (List (String × String))
  | [], acc => Except.ok acc
  | kv :: rest, acc =>
    if osExists sys kv.1 then zipWriteLoop sys rest (acc ++ [(kv.2, kv.1)])
    else Except.error ("[Errno 2] No such file or directory: \x27" ++ kv.1 ++ "\x27", acc)

/-- Lines 170-204 of `run_module`, after the chdir block: the overwrite
guard, the path loop, compression resolution, and the archive write.  The
`with zipfile.ZipFile(...)` block at lines 197-200 has no `try/except`:
creating the archive raises `OSError` when the environment denies the write
(nothing is created), and each `zipped_file.write` raises when its source
path does not resolve (the partially written archive remains); either
exception escapes `run_module` uncaught. -/
def run_after_chdir (p : Params) (res : ModuleResult) (filename : String) (sys : Sys) :
    Outcome × Sys :=
  if !p.force && osExists sys filename then
    (Outcome.exitJson res, sys)
  else
    match processPaths sys p.flatten p.paths [] with
    | Except.error msg => (Outcome.failJson msg res, sys)
    | Except.ok archive_paths =>
      match resolve_compress_level p.compress_level with
      | Except.error msg => (Outcome.failJson msg res, sys)
      | Except.ok _level =>
        if resolvePath sys filename ∈ sys.writeDenied then
          (Outcome.traceback ("[Errno 13] Permission denied: \x27" ++ filename ++ "\x27"),
           sys)
        else
          match zipWriteLoop sys archive_paths [] with
          | Except.error me =>
            let zipSoFar := Entry.zipArchive me.2
            (Outcome.traceback me.1,
             { sys with files := fsWrite sys.files (resolvePath sys filename) zipSoFar })
          | Except.ok entries =>
            let zipped := Entry.zipArchive entries
            (Outcome.exitJson { res with changed := true },
             { sys with files := fsWrite sys.files (resolvePath sys filename) zipped })

/-- `run_module` (lines 122-204): build the result record, run the chdir
block (lines 164-168, failing with the underlying system error text), then
the rest of the pipeline. -/
def run_module (p : Params) (sys : Sys) : Outcome × Sys :=
  let res := mkResult p sys
  let filename := expanduser sys.home p.filename
  if truthy (chdirTarget p sys) then
    match osChdir sys ((chdirTarget p sys).getD "") with
    | Except.error msg => (Outcome.failJson msg res, sys)
    | Except.ok sys1 => run_after_chdir p res filename sys1
  else
    run_after_chdir p res filename sys

/-- The chdir stage in isolation: the state after lines 164-168, or the
error raised there. -/
def chdirStep (p : Params) (sys : Sys) : Except String Sys :=
  if truthy (chdirTarget p sys) then osChdir sys ((chdirTarget p sys).getD "")
  else Except.ok sys

/-- The first element of the list that fails the `os.path.exists` check, if
any. -/
def firstMissing (sys : Sys) : List String → Option String
  | [] => none
  | q :: rest => if osExists sys q then firstMissing sys rest else some q

/-- A small concrete file system used to exercise the definitions: working
directory `/w` holding `a`, `sub` and `sub/b`, and a file `f` in the home
directory. -/
def sysDemo : Sys :=
  { home := "/home/u"
    cwd := "/w"
    files := [("/w/a", Entry.blob "x"), ("/w/sub", Entry.blob "d"),
              ("/w/sub/b", Entry.blob "y"), ("/home/u/f", Entry.blob "z")]
    writeDenied := [] }

/-- `sysDemo` with a pre-existing destination archive `out.zip`. -/
def sysDemoOut : Sys :=
  { sysDemo with files := ("/w/out.zip", Entry.blob "old") :: sysDemo.files }

/-- `sysDemo` with an environment that refuses to create `/w/out.zip`. -/
def sysDemoDenied : Sys :=
  { sysDemo with writeDenied := ["/w/out.zip"] }

/-- Base parameter set for the concrete examples. -/
def pDemo : Params :=
  { paths := ["a"]
    filename := "out.zip"
    chdir := none
    compress_level := "default"
    flatten := false
    force := false }

/-! ### Basic lemmas about the file system and dictionary operations -/

theorem fsLookup_fsWrite_self (fs : List (String × Entry)) (p : String) (e : Entry) :
    fsLookup (fsWrite fs p e) p = some e := by
  induction fs with
  | nil => simp [fsWrite, fsLookup]
  | cons kv rest ih =>
    by_cases h : kv.1 = p
    · simp [fsWrite, fsLookup, h]
    · simp [fsWrite, fsLookup, h, ih]

theorem mem_dictInsert_self (acc : List (String × String)) (k v : String) :
    (k, v) ∈ dictInsert acc k v := by
  induction acc with
  | nil => simp [dictInsert]
  | cons kv rest ih =>
    by_cases h : kv.1 = k
    · simp [dictInsert, h]
    · simp only [dictInsert, h, if_false]
      exact List.mem_cons_of_mem kv ih

theorem mem_of_mem_dictInsert {acc : List (String × String)} {k v : String}
    {kv : String × String} (h : kv ∈ dictInsert acc k v) : kv = (k, v) ∨ kv ∈ acc := by
  induction acc with
  | nil => simpa [dictInsert] using h
  | cons a rest ih =>
    by_cases ha : a.1 = k
    · simp only [dictInsert, ha, if_true] at h
      rcases List.mem_cons.mp h with h | h
      · exact Or.inl h
      · exact Or.inr (List.mem_cons_of_mem a h)
    · simp only [dictInsert, ha, if_false] at h
      rcases List.mem_cons.mp h with h | h
      · exact Or.inr (h ▸ List.mem_cons_self a rest)
      · rcases ih h with h | h
        · exact Or.inl h
        · exact Or.inr (List.mem_cons_of_mem a h)

theorem mem_dictInsert_of_mem {acc : List (String × String)} {k v : String}
    {kv : String × String} (h : kv ∈ acc) (hv : kv.1 = k → kv.2 = v) :
    kv ∈ dictInsert acc k v := by
  induction acc with
  | nil => simp at h
  | cons a rest ih =>
    by_cases ha : a.1 = k
    · simp only [dictInsert, ha, if_true]
      rcases List.mem_cons.mp h with h | h
      · by_cases hk : kv.1 = k
        · have : kv = (k, v) := Prod.ext hk (hv hk)
          exact this ▸ List.mem_cons_self _ _
        · exact absurd (h ▸ ha) hk
      · exact List.mem_cons_of_mem _ h
    · simp only [dictInsert, ha, if_false]
      rcases List.mem_cons.mp h with h | h
      · exact h ▸ List.mem_cons_self _ _
      · exact List.mem_cons_of_mem _ (ih h)

theorem dictInsert_keys (acc : List (String × String)) (k v : String) :
    (dictInsert acc k v).map Prod.fst =
      if k ∈ acc.map Prod.fst then acc.map Prod.fst else acc.map Prod.fst ++ [k] := by
  induction acc with
  | nil => simp [dictInsert]
  | cons a rest ih =>
    by_cases ha : a.1 = k
    · simp [dictInsert, ha]
    · have hne : ¬ k = a.1 := fun h => ha h.symm
      by_cases hk : k ∈ rest.map Prod.fst <;>
        simp [dictInsert, ha, hne, hk, ih]

theorem dictInsert_keys_nodup {acc : List (String × String)} (k v : String)
    (h : (acc.map Prod.fst).Nodup) : ((dictInsert acc k v).map Prod.fst).Nodup := by
  rw [dictInsert_keys]
  by_cases hk : k ∈ acc.map Prod.fst
  · simpa [hk] using h
  · simp only [hk, if_false]
    exact List.Nodup.append h (List.nodup_singleton k) (by simpa using hk)

theorem dictInsert_eq_self {acc : List (String × String)} {k v : String}
    (hmem : (k, v) ∈ acc) (hnd : (acc.map Prod.fst).Nodup) :
    dictInsert acc k v = acc := by
  induction acc with
  | nil => simp at hmem
  | cons a rest ih =>
    simp only [List.map_cons, List.nodup_cons] at hnd
    by_cases ha : a.1 = k
    · rcases List.mem_cons.mp hmem with h | h
      · simp [dictInsert, ha, ← h]
      · exact absurd (ha ▸ List.mem_map_of_mem Prod.fst h) hnd.1
    · have h : (k, v) ∈ rest := by
        rcases List.mem_cons.mp hmem with h | h
        · exact absurd (congrArg Prod.fst h.symm) ha
        · exact h
      simp [dictInsert, ha, ih h hnd.2]

/-! ### Lemmas about the path-processing loop -/

theorem processPaths_ok_exists {sys : Sys} {f : Bool} {paths : List String}
    {acc d : List (String × String)} (h : processPaths sys f paths acc = Except.ok d) :
    ∀ q ∈ paths, osExists sys q = true := by
  induction paths generalizing acc with
  | nil => simp
  | cons path rest ih =>
    intro q hq
    cases hp : osExists sys path with
    | false => simp [processPaths, hp] at h
    | true =>
      simp only [processPaths, hp, if_true] at h
      rcases List.mem_cons.mp hq with rfl | hq
      · exact hp
      · exact ih h q hq

theorem processPaths_acc_mem {sys : Sys} {f : Bool} {paths : List String}
    {acc d : List (String × String)} {kv : String × String}
    (h : processPaths sys f paths acc = Except.ok d) (hkv : kv ∈ acc)
    (hval : kv.2 = (if f then basename kv.1 else lstripSlash kv.1)) : kv ∈ d := by
  induction paths generalizing acc with
  | nil =>
    simp only [processPaths, Except.ok.injEq] at h
    exact h ▸ hkv
  | cons path rest ih =>
    cases hp : osExists sys path with
    | false => simp [processPaths, hp] at h
    | true =>
      simp only [processPaths, hp, if_true] at h
      refine ih h (mem_dictInsert_of_mem hkv fun hk => ?_)
      rw [hval, hk]

theorem processPaths_mem {sys : Sys} {f : Bool} {paths : List String}
    {acc d : List (String × String)} (h : processPaths sys f paths acc = Except.ok d) :
    ∀ kv ∈ d, kv ∈ acc ∨ ∃ q ∈ paths, osExists sys q = true ∧
      kv.1 = expanduser sys.home q ∧
      kv.2 = (if f then basename kv.1 else lstripSlash kv.1) := by
  induction paths generalizing acc with
  | nil =>
    intro kv hkv
    simp only [processPaths, Except.ok.injEq] at h
    exact Or.inl (h ▸ hkv)
  | cons path rest ih =>
    intro kv hkv
    cases hp : osExists sys path with
    | false => simp [processPaths, hp] at h
    | true =>
      simp only [processPaths, hp, if_true] at h
      rcases ih h kv hkv with hmem | ⟨q, hq, hex, hkey, hval⟩
      · rcases mem_of_mem_dictInsert hmem with rfl | hacc
        · exact Or.inr ⟨path, List.mem_cons_self _ _, hp, rfl, rfl⟩
        · exact Or.inl hacc
      · exact Or.inr ⟨q, List.mem_cons_of_mem _ hq, hex, hkey, hval⟩

theorem processPaths_keys_nodup {sys : Sys} {f : Bool} {paths : List String}
    {acc d : List (String × String)} (h : processPaths sys f paths acc = Except.ok d)
    (hnd : (acc.map Prod.fst).Nodup) : (d.map Prod.fst).Nodup := by
  induction paths generalizing acc with
  | nil =>
    simp only [processPaths, Except.ok.injEq] at h
    exact h ▸ hnd
  | cons path rest ih =>
    cases hp : osExists sys path with
    | false => simp [processPaths, hp] at h
    | true =>
      simp only [processPaths, hp, if_true] at h
      exact ih h (dictInsert_keys_nodup _ _ hnd)

theorem processPaths_path_mem {sys : Sys} {f : Bool} {paths : List String}
    {acc d : List (String × String)} (h : processPaths sys f paths acc = Except.ok d) :
    ∀ q ∈ paths,
      (expanduser sys.home q,
        if f then basename (expanduser sys.home q)
        else lstripSlash (expanduser sys.home q)) ∈ d := by
  induction paths generalizing acc with
  | nil => simp
  | cons path rest ih =>
    intro q hq
    cases hp : osExists sys path with
    | false => simp [processPaths, hp] at h
    | true =>
      simp only [processPaths, hp, if_true] at h
      rcases List.mem_cons.mp hq with rfl | hq
      · exact processPaths_acc_mem h (mem_dictInsert_self _ _ _) rfl
      · exact ih h q hq

theorem processPaths_stable {sys : Sys} {f : Bool} {qs : List String}
    {acc : List (String × String)} (hnd : (acc.map Prod.fst).Nodup)
    (hq : ∀ q ∈ qs, osExists sys q = true ∧
      (expanduser sys.home q,
        if f then basename (expanduser sys.home q)
        else lstripSlash (expanduser sys.home q)) ∈ acc) :
    processPaths sys f qs acc = Except.ok acc := by
  induction qs with
  | nil => rfl
  | cons q rest ih =>
    obtain ⟨hex, hmem⟩ := hq q (List.mem_cons_self _ _)
    simp only [processPaths, hex, if_true]
    rw [dictInsert_eq_self hmem hnd]
    exact ih fun q2 hq2 => hq q2 (List.mem_cons_of_mem _ hq2)

theorem processPaths_append (sys : Sys) (f : Bool) (as bs : List String)
    (acc : List (String × String)) :
    processPaths sys f (as ++ bs) acc =
      match processPaths sys f as acc with
      | Except.error e => Except.error e
      | Except.ok d => processPaths sys f bs d := by
  induction as generalizing acc with
  | nil => simp [processPaths]
  | cons path rest ih =>
    cases hp : osExists sys path with
    | false => simp [processPaths, hp]
    | true => simp [processPaths, hp, ih]

theorem processPaths_error_of_firstMissing {sys : Sys} {f : Bool} {paths : List String}
    {q : String} (acc : List (String × String)) (h : firstMissing sys paths = some q) :
    processPaths sys f paths acc = Except.error ("path does not exist: " ++ q) := by
  induction paths generalizing acc with
  | nil => simp [firstMissing] at h
  | cons path rest ih =>
    cases hp : osExists sys path with
    | false =>
      simp only [firstMissing, hp, Bool.false_eq_true, if_false, Option.some.injEq] at h
      subst h
      simp [processPaths, hp]
    | true =>
      simp only [firstMissing, hp, if_true] at h
      simp [processPaths, hp, ih _ h]

theorem processPaths_error_shape {sys : Sys} {f : Bool} {paths : List String}
    {acc : List (String × String)} {msg : String}
    (h : processPaths sys f paths acc = Except.error msg) :
    ∃ q, msg = "path does not exist: " ++ q := by
  induction paths generalizing acc with
  | nil => simp [processPaths] at h
  | cons path rest ih =>
    cases hp : osExists sys path with
    | false =>
      simp only [processPaths, hp, Bool.false_eq_true, if_false, Except.error.injEq] at h
      exact ⟨path, h.symm⟩
    | true =>
      simp only [processPaths, hp, if_true] at h
      exact ih h

theorem zipWriteLoop_error_shape {sys : Sys} {aps acc : List (String × String)}
    {me : String × List (String × String)}
    (h : zipWriteLoop sys aps acc = Except.error me) :
    ∃ q, me.1 = ("[Errno 2] No such file or directory: \x27" ++ q) ++ "\x27" := by
  induction aps generalizing acc with
  | nil => simp [zipWriteLoop] at h
  | cons kv rest ih =>
    cases hp : osExists sys kv.1 with
    | true =>
      simp only [zipWriteLoop, hp, if_true] at h
      exact ih h
    | false =>
      simp only [zipWriteLoop, hp, Bool.false_eq_true, if_false, Except.error.injEq] at h
      exact ⟨kv.1, by rw [← h]⟩

/-! ### Lemmas about `basename` and `lstripSlash` -/

theorem basename_foldl_no_slash (l : List Char) (acc : List Char) (h : '/' ∉ acc) :
    '/' ∉ l.foldl (fun acc c => if c = '/' then [] else acc ++ [c]) acc := by
  induction l generalizing acc with
  | nil => exact h
  | cons c t ih =>
    simp only [List.foldl_cons]
    by_cases hc : c = '/'
    · simp only [hc, if_pos rfl]
      exact ih [] (by simp)
    · simp only [if_neg hc]
      refine ih (acc ++ [c]) ?_
      intro hmem
      rcases List.mem_append.mp hmem with hmem | hmem
      · exact h hmem
      · exact hc (List.mem_singleton.mp hmem).symm

theorem basename_no_slash (p : String) : '/' ∉ (basename p).data :=
  basename_foldl_no_slash p.data [] (by simp)

theorem basename_foldl_decomp (l : List Char) (acc : List Char) :
    ∃ pre, acc ++ l =
        pre ++ l.foldl (fun acc c => if c = '/' then [] else acc ++ [c]) acc ∧
      (pre = [] ∨ ∃ pre2, pre = pre2 ++ ['/']) := by
  induction l generalizing acc with
  | nil => exact ⟨[], by simp, Or.inl rfl⟩
  | cons c t ih =>
    by_cases hc : c = '/'
    · subst hc
      obtain ⟨pre1, heq, hgood⟩ := ih []
      simp only [List.nil_append] at heq
      refine ⟨acc ++ '/' :: pre1, ?_, Or.inr ?_⟩
      · simp only [List.foldl_cons, reduceIte, List.append_assoc, List.cons_append]
        rw [← heq]
      · rcases hgood with rfl | ⟨pre2, rfl⟩
        · exact ⟨acc, by simp⟩
        · exact ⟨acc ++ '/' :: pre2, by simp⟩
    · obtain ⟨pre1, heq, hgood⟩ := ih (acc ++ [c])
      refine ⟨pre1, ?_, hgood⟩
      simp only [List.foldl_cons, if_neg hc]
      rw [show acc ++ c :: t = (acc ++ [c]) ++ t by simp]
      exact heq

theorem basename_decomp (p : String) :
    ∃ pre, p.data = pre ++ (basename p).data ∧
      (pre = [] ∨ ∃ pre2, pre = pre2 ++ ['/']) := by
  have h := basename_foldl_decomp p.data []
  simpa [basename] using h

theorem lstripSlash_decomp (p : String) :
    ∃ sl, p.data = sl ++ (lstripSlash p).data ∧ ∀ c ∈ sl, c = '/' := by
  refine ⟨p.data.takeWhile (fun c => c = '/'), ?_, ?_⟩
  · exact (List.takeWhile_append_dropWhile _ _).symm
  · intro c hc
    simpa using List.mem_takeWhile_imp hc

theorem append_ne_empty_of_left {s : String} (t : String) (h : s.data ≠ []) :
    s ++ t ≠ "" := by
  intro he
  apply h
  have hd := congrArg String.data he
  rw [String.data_append] at hd
  exact (List.append_eq_nil.mp hd).1

theorem lit_append_ne_empty (a p t : String) (ha : a.data ≠ []) :
    (a ++ p) ++ t ≠ "" := by
  refine append_ne_empty_of_left t ?_
  rw [String.data_append]
  intro hh
  exact ha (List.append_eq_nil.mp hh).1

/-! ### Structural lemmas about `run_module` -/

theorem resolve_error_shape {s msg : String}
    (h : resolve_compress_level s = Except.error msg) :
    msg = "incorrect value for \x27compress_level\x27 option: " ++ s := by
  unfold resolve_compress_level at h
  split at h
  · exact absurd h (by simp)
  · simp only [Except.error.injEq] at h
    exact h.symm

theorem osChdir_ok {sys : Sys} {p : String} {sys1 : Sys}
    (h : osChdir sys p = Except.ok sys1) :
    sys1 = { sys with cwd := resolvePath sys p } := by
  unfold osChdir at h
  split at h
  · simp only [Except.ok.injEq] at h
    exact h.symm
  · simp at h

theorem osChdir_error_ne {sys : Sys} {p msg : String}
    (h : osChdir sys p = Except.error msg) : msg ≠ "" := by
  unfold osChdir at h
  split at h
  · simp at h
  · simp only [Except.error.injEq] at h
    exact h ▸ lit_append_ne_empty _ p _ (by decide)

theorem chdirStep_ok_state {p : Params} {sys sys1 : Sys}
    (h : chdirStep p sys = Except.ok sys1) :
    sys1.files = sys.files ∧ sys1.home = sys.home := by
  unfold chdirStep at h
  split at h
  · rw [osChdir_ok h]
    exact ⟨rfl, rfl⟩
  · simp only [Except.ok.injEq] at h
    exact h ▸ ⟨rfl, rfl⟩

theorem chdirStep_error_ne {p : Params} {sys : Sys} {msg : String}
    (h : chdirStep p sys = Except.error msg) : msg ≠ "" := by
  unfold chdirStep at h
  split at h
  · exact osChdir_error_ne h
  · simp at h

theorem chdirStep_none {p : Params} {sys : Sys} (hc : p.chdir = none) :
    chdirStep p sys = Except.ok sys := by
  simp [chdirStep, chdirTarget, hc, truthy]

theorem run_module_eq (p : Params) (sys : Sys) :
    run_module p sys =
      match chdirStep p sys with
      | Except.error msg => (Outcome.failJson msg (mkResult p sys), sys)
      | Except.ok sys1 =>
          run_after_chdir p (mkResult p sys) (expanduser sys.home p.filename) sys1 := by
  unfold run_module chdirStep
  by_cases ht : truthy (chdirTarget p sys) = true
  · simp only [ht, if_true]
  · simp only [Bool.not_eq_true] at ht
    simp [ht]

theorem run_module_ok {p : Params} {sys sys1 : Sys}
    (hch : chdirStep p sys = Except.ok sys1) :
    run_module p sys =
      run_after_chdir p (mkResult p sys) (expanduser sys.home p.filename) sys1 := by
  rw [run_module_eq, hch]

theorem run_module_err {p : Params} {sys : Sys} {msg : String}
    (hch : chdirStep p sys = Except.error msg) :
    run_module p sys = (Outcome.failJson msg (mkResult p sys), sys) := by
  rw [run_module_eq, hch]

theorem run_module_noop {p : Params} {sys : Sys} (hc : p.chdir = none)
    (hguard : (!p.force && osExists sys (expanduser sys.home p.filename)) = true) :
    run_module p sys = (Outcome.exitJson (mkResult p sys), sys) := by
  rw [run_module_eq, chdirStep_none hc]
  simp [run_after_chdir, hguard]

theorem run_module_missing_path {p : Params} {sys sys1 : Sys} {q : String}
    (hch : chdirStep p sys = Except.ok sys1)
    (hguard : (!p.force && osExists sys1 (expanduser sys.home p.filename)) = false)
    (hq : firstMissing sys1 p.paths = some q) :
    run_module p sys =
      (Outcome.failJson ("path does not exist: " ++ q) (mkResult p sys), sys1) := by
  rw [run_module_ok hch]
  unfold run_after_chdir
  rw [hguard]
  simp [processPaths_error_of_firstMissing _ hq]

theorem osExists_after_write (sys : Sys) (fn : String) (e : Entry) :
    osExists { sys with files := fsWrite sys.files (resolvePath sys fn) e } fn = true := by
  show (fsLookup (fsWrite sys.files (resolvePath sys fn) e) (resolvePath sys fn)).isSome = true
  rw [fsLookup_fsWrite_self]
  rfl

/-! ### Claim theorems -/

/-- C1: the compression resolver maps `default` to -1, `none` to 0, `fast`
to 1 and `best` to 9.  However, because `compress_level` always arrives as a
string and line 192 tests `isinstance(compress_level, int)` on it, the
numeric-string branch is unreachable: `"5"`, although listed in the module's
own `COMPRESS_CHOICES`, is rejected with the configuration error instead of
mapping to 5 (and `"banana"` is rejected as the claim says). -/
theorem compress_level_resolution :
    resolve_compress_level "default" = Except.ok (-1) ∧
    resolve_compress_level "none" = Except.ok 0 ∧
    resolve_compress_level "fast" = Except.ok 1 ∧
    resolve_compress_level "best" = Except.ok 9 ∧
    "5" ∈ COMPRESS_CHOICES ∧
    resolve_compress_level "5" =
      Except.error ("incorrect value for \x27compress_level\x27 option: " ++ "5") ∧
    resolve_compress_level "banana" =
      Except.error ("incorrect value for \x27compress_level\x27 option: " ++ "banana") :=
  ⟨rfl, rfl, rfl, rfl, by simp [COMPRESS_CHOICES], rfl, rfl⟩

/-- C10: when `force` is false and the destination already exists (after any
successful chdir), `run_module` exits successfully with `changed = false`
and an untouched file system, for every `paths` list and every
`compress_level` value — the guard at lines 170-171 runs before the
path-existence loop and before compression resolution. -/
theorem existing_destination_short_circuit (p : Params) (sys sys1 : Sys)
    (hch : chdirStep p sys = Except.ok sys1) (hf : p.force = false)
    (he : osExists sys1 (expanduser sys.home p.filename) = true) :
    run_module p sys = (Outcome.exitJson (mkResult p sys), sys1) ∧
    (mkResult p sys).changed = false ∧ sys1.files = sys.files := by
  refine ⟨?_, rfl, (chdirStep_ok_state hch).1⟩
  rw [run_module_ok hch]
  simp [run_after_chdir, hf, he]

/-- C10 witness: with a pre-existing `out.zip`, no `force`, a path that does
not exist, and an unrecognised `compress_level`, the run still exits
successfully with `changed = false`. -/
theorem existing_destination_short_circuit_witness :
    run_module { pDemo with paths := ["nope"], compress_level := "banana" } sysDemoOut =
      (Outcome.exitJson (mkResult { pDemo with paths := ["nope"], compress_level := "banana" }
        sysDemoOut), sysDemoOut) ∧
    osExists sysDemoOut "nope" = false ∧
    resolve_compress_level "banana" ≠ Except.ok 0 := by
  refine ⟨?_, by decide, fun h => Except.noConfusion h⟩
  exact (existing_destination_short_circuit
    { pDemo with paths := ["nope"], compress_level := "banana" }
    sysDemoOut sysDemoOut rfl rfl (by decide)).1

/-- C7: when a truthy working-directory override is given, `run_module`
first attempts the directory change: if it fails, the run aborts with the
underlying file-system error message and the state (hence the destination
archive) is untouched; if it succeeds, the working directory is changed —
and only the working directory — before any of the remaining pipeline
(overwrite guard, source-path resolution, archive write) runs. -/
theorem chdir_failfast_and_order (p : Params) (sys : Sys) (d : String)
    (h1 : chdirTarget p sys = some d) (h2 : d ≠ "") :
    (∀ msg, osChdir sys d = Except.error msg →
      run_module p sys = (Outcome.failJson msg (mkResult p sys), sys)) ∧
    (∀ sys1, osChdir sys d = Except.ok sys1 →
      run_module p sys =
        run_after_chdir p (mkResult p sys) (expanduser sys.home p.filename) sys1 ∧
      sys1.cwd = resolvePath sys d ∧ sys1.files = sys.files ∧ sys1.home = sys.home) := by
  have ht : truthy (chdirTarget p sys) = true := by
    rw [h1]
    simpa [truthy] using h2
  constructor
  · intro msg hmsg
    unfold run_module
    rw [ht, if_pos rfl, h1]
    simp only [Option.getD_some, hmsg]
  · intro sys1 hok
    refine ⟨?_, ?_⟩
    · unfold run_module
      rw [ht, if_pos rfl, h1]
      simp only [Option.getD_some, hok]
    · rw [osChdir_ok hok]
      exact ⟨rfl, rfl, rfl⟩

/-- C7 witness: `chdir = "nodir"` does not exist in `sysDemo`, so the run
fails with the system error text and leaves the state unchanged. -/
theorem chdir_failfast_and_order_witness :
    run_module { pDemo with chdir := some "nodir" } sysDemo =
      (Outcome.failJson ("[Errno 2] No such file or directory: \x27" ++ "nodir" ++ "\x27")
        (mkResult { pDemo with chdir := some "nodir" } sysDemo), sysDemo) :=
  (chdir_failfast_and_order { pDemo with chdir := some "nodir" } sysDemo "nodir"
    rfl (by decide)).1 _ rfl

/-- C2 (amended): if the run proceeds past the overwrite guard (`force` set
or destination absent) after a successful chdir stage, a missing source path
makes the run fail with an error naming the first missing path, and the file
system — in particular any pre-existing destination — is untouched.  (As
stated the claim is false: when `force` is false and the destination exists,
the guard exits successfully before the path check, see the
counterexample.) -/
theorem missing_path_failfast (p : Params) (sys sys1 : Sys) (q : String)
    (hch : chdirStep p sys = Except.ok sys1)
    (hguard : (!p.force && osExists sys1 (expanduser sys.home p.filename)) = false)
    (hq : firstMissing sys1 p.paths = some q) :
    run_module p sys =
      (Outcome.failJson ("path does not exist: " ++ q) (mkResult p sys), sys1) ∧
    sys1.files = sys.files :=
  ⟨run_module_missing_path hch hguard hq, (chdirStep_ok_state hch).1⟩

/-- C2 counterexample: `paths = ["nope"]` does not exist, yet with a
pre-existing destination and `force = false` the operation succeeds as a
no-op instead of failing. -/
theorem missing_path_failfast_counterexample :
    osExists sysDemoOut "nope" = false ∧
    run_module { pDemo with paths := ["nope"] } sysDemoOut =
      (Outcome.exitJson (mkResult { pDemo with paths := ["nope"] } sysDemoOut),
        sysDemoOut) := by
  exact ⟨by decide, by decide⟩

/-- C2 witness: with `force = true` and the missing path `nope`, the run
fails naming `nope` and the pre-existing destination is untouched. -/
theorem missing_path_failfast_witness :
    run_module { pDemo with paths := ["nope"], force := true } sysDemoOut =
      (Outcome.failJson ("path does not exist: " ++ "nope")
        (mkResult { pDemo with paths := ["nope"], force := true } sysDemoOut),
        sysDemoOut) ∧
    sysDemoOut.files = sysDemoOut.files :=
  missing_path_failfast { pDemo with paths := ["nope"], force := true }
    sysDemoOut sysDemoOut "nope" rfl (by decide) (by decide)

/-- C3 (amended): the existence check of the path loop is performed on each
source path as given, before home-directory expansion: the loop fails naming
the first raw path that does not exist, and for paths that pass the check
the mapping key is the home-expanded path and the entry name is computed
from that expanded path.  (As stated the claim is false: a path `~/f` whose
expansion exists fails the check, see the counterexample.) -/
theorem exists_check_on_raw_path (p : Params) (sys sys1 : Sys)
    (hch : chdirStep p sys = Except.ok sys1) :
    (∀ q, firstMissing sys1 p.paths = some q →
      (!p.force && osExists sys1 (expanduser sys.home p.filename)) = false →
      run_module p sys =
        (Outcome.failJson ("path does not exist: " ++ q) (mkResult p sys), sys1)) ∧
    (∀ d, processPaths sys1 p.flatten p.paths [] = Except.ok d →
      ∀ kv ∈ d, ∃ q ∈ p.paths, osExists sys1 q = true ∧
        kv.1 = expanduser sys1.home q ∧
        kv.2 = (if p.flatten then basename kv.1 else lstripSlash kv.1)) := by
  constructor
  · intro q hq hguard
    exact run_module_missing_path hch hguard hq
  · intro d hd kv hkv
    rcases processPaths_mem hd kv hkv with hmem | hmem
    · simp at hmem
    · exact hmem

/-- C3 counterexample: the expansion of `~/f` exists in `sysDemo`, yet the
run fails the existence check on the raw path `~/f` (resolved relative to
the working directory), instead of passing as the claim states. -/
theorem exists_check_on_raw_path_counterexample :
    osExists sysDemo (expanduser sysDemo.home "~/f") = true ∧
    run_module { pDemo with paths := ["~/f"], force := true } sysDemo =
      (Outcome.failJson ("path does not exist: " ++ "~/f")
        (mkResult { pDemo with paths := ["~/f"], force := true } sysDemo), sysDemo) := by
  exact ⟨by decide, by decide⟩

/-- C3 witness: concrete instance of the amended claim — `a` passes the raw
check and is mapped under its expanded name. -/
theorem exists_check_on_raw_path_witness :
    processPaths sysDemo false ["a"] [] = Except.ok [("a", "a")] ∧
    ∃ q ∈ ({ pDemo with force := true } : Params).paths,
      osExists sysDemo q = true ∧ ("a" : String) = expanduser sysDemo.home q ∧
      ("a" : String) = (if ({ pDemo with force := true } : Params).flatten
        then basename "a" else lstripSlash "a") := by
  refine ⟨rfl, ?_⟩
  have h := (exists_check_on_raw_path { pDemo with force := true } sysDemo sysDemo
    rfl).2 [("a", "a")] rfl ("a", "a") (by simp)
  simpa using h

/-- C4: with `force = false` (and no chdir override), a pre-existing
destination makes the run an exact no-op — success with `changed = false`
and a completely unchanged state — and consequently whenever a first run
exits successfully, a second identical run exits with `changed = false`
and changes nothing. -/
theorem noop_idempotence (p : Params) (sys : Sys)
    (hf : p.force = false) (hc : p.chdir = none) :
    (osExists sys (expanduser sys.home p.filename) = true →
      run_module p sys = (Outcome.exitJson (mkResult p sys), sys) ∧
      (mkResult p sys).changed = false) ∧
    (∀ out1 sys1 r1, run_module p sys = (out1, sys1) → out1 = Outcome.exitJson r1 →
      run_module p sys1 = (Outcome.exitJson (mkResult p sys1), sys1) ∧
      (mkResult p sys1).changed = false) := by
  constructor
  · intro he
    exact ⟨run_module_noop hc (by simp [hf, he]), rfl⟩
  · intro out1 sys1 r1 h hout
    rw [run_module_ok (chdirStep_none hc)] at h
    unfold run_after_chdir at h
    split at h
    · next hcond =>
      simp only [Prod.mk.injEq] at h
      obtain ⟨h1, h2⟩ := h
      subst h2
      exact ⟨run_module_noop hc hcond, rfl⟩
    · next hcond =>
      split at h
      · subst hout
        simp only [Prod.mk.injEq] at h
        exact absurd h.1 (fun hx => Outcome.noConfusion hx)
      · split at h
        · subst hout
          simp only [Prod.mk.injEq] at h
          exact absurd h.1 (fun hx => Outcome.noConfusion hx)
        · split at h
          · subst hout
            simp only [Prod.mk.injEq] at h
            exact absurd h.1 (fun hx => Outcome.noConfusion hx)
          · split at h
            · subst hout
              simp only [Prod.mk.injEq] at h
              exact absurd h.1 (fun hx => Outcome.noConfusion hx)
            · simp only [Prod.mk.injEq] at h
              obtain ⟨h1, h2⟩ := h
              subst h2
              refine ⟨run_module_noop hc ?_, rfl⟩
              simp only [hf, Bool.not_false, Bool.true_and]
              exact osExists_after_write sys (expanduser sys.home p.filename) _

/-- C4 witness: a second run against the destination produced by our demo
state is a no-op reporting `changed = false`. -/
theorem noop_idempotence_witness :
    run_module pDemo sysDemoOut =
      (Outcome.exitJson (mkResult pDemo sysDemoOut), sysDemoOut) ∧
    (mkResult pDemo sysDemoOut).changed = false :=
  (noop_idempotence pDemo sysDemoOut rfl rfl).1 (by decide)

/-- C5: when `flatten` is true every value of the path-to-entry-name mapping
is the basename of its (expanded) key — the suffix after the last path
separator — and therefore contains no separator character. -/
theorem flatten_entry_names (sys : Sys) (paths : List String)
    (d : List (String × String)) (h : processPaths sys true paths [] = Except.ok d) :
    ∀ kv ∈ d, kv.2 = basename kv.1 ∧ '/' ∉ kv.2.data ∧
      ∃ pre, kv.1.data = pre ++ kv.2.data ∧ (pre = [] ∨ ∃ pre2, pre = pre2 ++ ['/']) := by
  intro kv hkv
  rcases processPaths_mem h kv hkv with hmem | ⟨q, hq, hex, hkey, hval⟩
  · simp at hmem
  · simp only [reduceIte] at hval
    refine ⟨hval, ?_, ?_⟩
    · rw [hval]
      exact basename_no_slash kv.1
    · rw [hval]
      exact basename_decomp kv.1

/-- C5 witness: `sub/b` is mapped to the separator-free entry name `b`. -/
theorem flatten_entry_names_witness :
    processPaths sysDemo true ["sub/b"] [] = Except.ok [("sub/b", "b")] ∧
    ("b" : String) = basename "sub/b" ∧ '/' ∉ ("b" : String).data := by
  have h := flatten_entry_names sysDemo ["sub/b"] [("sub/b", "b")] rfl
    ("sub/b", "b") (by simp)
  exact ⟨rfl, h.1, h.2.1⟩

/-- C6: when `flatten` is false every mapping key is an expanded source path
and its value is the key with exactly its leading slashes stripped (the
remaining hierarchy unchanged), so entries whose keys differ after stripping
get distinct entry names. -/
theorem hierarchy_entry_names (sys : Sys) (paths : List String)
    (d : List (String × String)) (h : processPaths sys false paths [] = Except.ok d) :
    ∀ kv ∈ d, (∃ q ∈ paths, kv.1 = expanduser sys.home q) ∧
      kv.2 = lstripSlash kv.1 ∧
      (∃ sl, kv.1.data = sl ++ kv.2.data ∧ ∀ c ∈ sl, c = '/') ∧
      ∀ kv2 ∈ d, lstripSlash kv.1 ≠ lstripSlash kv2.1 → kv.2 ≠ kv2.2 := by
  intro kv hkv
  rcases processPaths_mem h kv hkv with hmem | ⟨q, hq, hex, hkey, hval⟩
  · simp at hmem
  · simp only [Bool.false_eq_true, if_false] at hval
    refine ⟨⟨q, hq, hkey⟩, hval, by rw [hval]; exact lstripSlash_decomp kv.1, ?_⟩
    intro kv2 hkv2 hne
    rcases processPaths_mem h kv2 hkv2 with hmem2 | ⟨q2, hq2, hex2, hkey2, hval2⟩
    · simp at hmem2
    · simp only [Bool.false_eq_true, if_false] at hval2
      rw [hval, hval2]
      exact hne

/-- C6 witness: the absolute path `/w/a` keeps its hierarchy, losing only
the leading slash. -/
theorem hierarchy_entry_names_witness :
    processPaths sysDemo false ["/w/a"] [] = Except.ok [("/w/a", "w/a")] ∧
    ("w/a" : String) = lstripSlash "/w/a" ∧
    ∃ q ∈ (["/w/a"] : List String), ("/w/a" : String) = expanduser sysDemo.home q := by
  have h := hierarchy_entry_names sysDemo ["/w/a"] [("/w/a", "w/a")] rfl
    ("/w/a", "w/a") (by simp)
  exact ⟨rfl, h.2.1, h.1⟩

/-- C8: the path-to-entry-name mapping built by the loop has pairwise
distinct keys, and processing the path list twice over produces exactly the
same mapping — duplicate source paths collapse to a single entry, so each
distinct source path is written to the archive at most once. -/
theorem entry_mapping_keys_unique (sys : Sys) (f : Bool) (paths : List String)
    (d : List (String × String)) (h : processPaths sys f paths [] = Except.ok d) :
    (d.map Prod.fst).Nodup ∧ processPaths sys f (paths ++ paths) [] = Except.ok d := by
  have hnd := processPaths_keys_nodup h (by simp)
  refine ⟨hnd, ?_⟩
  rw [processPaths_append, h]
  exact processPaths_stable hnd fun q hq =>
    ⟨processPaths_ok_exists h q hq, processPaths_path_mem h q hq⟩

/-- C8 witness: the duplicated list `["a", "a"]` collapses to the single
entry `("a", "a")`, with no duplicate keys. -/
theorem entry_mapping_keys_unique_witness :
    (([("a", "a")] : List (String × String)).map Prod.fst).Nodup ∧
    processPaths sysDemo false (["a", "a"] ++ ["a", "a"]) [] =
      Except.ok [("a", "a")] := by
  have h := entry_mapping_keys_unique sysDemo false ["a", "a"] [("a", "a")] rfl
  exact ⟨h.1, h.2⟩

/-- C9 (amended): every `fail_json` exit carries the echoed parameter record
(with `changed = false`) and a non-empty human-readable message; an archive
I/O failure, however, escapes as an uncaught exception that carries only a
non-empty message and no result record at all (the claim is false as stated,
see the counterexample); a successful exit with `changed = false` leaves the
file system untouched; and a successful exit reports `changed = true`
exactly when the run passed the overwrite guard, every source path was
mapped, the compression setting resolved, the destination was writable, and
the destination archive was written with every mapped entry. -/
theorem changed_reporting (p : Params) (sys : Sys) (out : Outcome) (sys2 : Sys)
    (h : run_module p sys = (out, sys2)) :
    (∀ msg r, out = Outcome.failJson msg r →
      r = mkResult p sys ∧ r.changed = false ∧ msg ≠ "") ∧
    (∀ msg, out = Outcome.traceback msg → msg ≠ "" ∧ carriesResult out = false) ∧
    (∀ r, out = Outcome.exitJson r → r.changed = false → sys2.files = sys.files) ∧
    (∀ r, out = Outcome.exitJson r →
      (r.changed = true ↔ ∃ sys1 d lvl e,
        chdirStep p sys = Except.ok sys1 ∧
        (!p.force && osExists sys1 (expanduser sys.home p.filename)) = false ∧
        processPaths sys1 p.flatten p.paths [] = Except.ok d ∧
        resolve_compress_level p.compress_level = Except.ok lvl ∧
        resolvePath sys1 (expanduser sys.home p.filename) ∉ sys1.writeDenied ∧
        zipWriteLoop sys1 d [] = Except.ok e ∧
        sys2.files = fsWrite sys1.files
          (resolvePath sys1 (expanduser sys.home p.filename))
          (Entry.zipArchive e))) := by
  cases hch : chdirStep p sys with
  | error msg0 =>
    rw [run_module_err hch] at h
    simp only [Prod.mk.injEq] at h
    obtain ⟨h1, h2⟩ := h
    subst h1
    subst h2
    refine ⟨?_, ?_, ?_, ?_⟩
    · intro msg r heq
      simp only [Outcome.failJson.injEq] at heq
      obtain ⟨hm, hr⟩ := heq
      exact ⟨hr.symm, hr ▸ (rfl : (mkResult p sys).changed = false),
        hm ▸ chdirStep_error_ne hch⟩
    · intro msg heq
      simp at heq
    · intro r heq
      simp at heq
    · intro r heq
      simp at heq
  | ok sys1 =>
    rw [run_module_ok hch] at h
    unfold run_after_chdir at h
    split at h
    · next hguard =>
      simp only [Prod.mk.injEq] at h
      obtain ⟨h1, h2⟩ := h
      subst h1
      subst h2
      refine ⟨?_, ?_, ?_, ?_⟩
      · intro msg r heq
        simp at heq
      · intro msg heq
        simp at heq
      · intro r heq hc0
        exact (chdirStep_ok_state hch).1
      · intro r heq
        simp only [Outcome.exitJson.injEq] at heq
        constructor
        · intro hc1
          rw [← heq] at hc1
          exact absurd hc1 (by simp [mkResult])
        · rintro ⟨sys1w, d, lvl, e, hchw, hguardw, -, -, -, -, -⟩
          simp only [Except.ok.injEq] at hchw
          subst hchw
          rw [hguard] at hguardw
          exact absurd hguardw (by simp)
    · next hguard =>
      have hguardF : (!p.force && osExists sys1 (expanduser sys.home p.filename)) = false := by
        cases hb : (!p.force && osExists sys1 (expanduser sys.home p.filename)) with
        | false => rfl
        | true => exact absurd hb hguard
      split at h
      · next msg0 hpp =>
        simp only [Prod.mk.injEq] at h
        obtain ⟨h1, h2⟩ := h
        subst h1
        subst h2
        refine ⟨?_, ?_, ?_, ?_⟩
        · intro msg r heq
          simp only [Outcome.failJson.injEq] at heq
          obtain ⟨hm, hr⟩ := heq
          obtain ⟨q, hq⟩ := processPaths_error_shape hpp
          refine ⟨hr.symm, hr ▸ (rfl : (mkResult p sys).changed = false), ?_⟩
          rw [← hm, hq]
          exact append_ne_empty_of_left q (by decide)
        · intro msg heq
          simp at heq
        · intro r heq
          simp at heq
        · intro r heq
          simp at heq
      · next aps hpp =>
        split at h
        · next msg0 hres =>
          simp only [Prod.mk.injEq] at h
          obtain ⟨h1, h2⟩ := h
          subst h1
          subst h2
          refine ⟨?_, ?_, ?_, ?_⟩
          · intro msg r heq
            simp only [Outcome.failJson.injEq] at heq
            obtain ⟨hm, hr⟩ := heq
            refine ⟨hr.symm, hr ▸ (rfl : (mkResult p sys).changed = false), ?_⟩
            rw [← hm, resolve_error_shape hres]
            exact append_ne_empty_of_left _ (by decide)
          · intro msg heq
            simp at heq
          · intro r heq
            simp at heq
          · intro r heq
            simp at heq
        · next lvl hres =>
          split at h
          · next hden =>
            simp only [Prod.mk.injEq] at h
            obtain ⟨h1, h2⟩ := h
            subst h1
            subst h2
            refine ⟨?_, ?_, ?_, ?_⟩
            · intro msg r heq
              simp at heq
            · intro msg heq
              simp only [Outcome.traceback.injEq] at heq
              refine ⟨?_, rfl⟩
              rw [← heq]
              exact lit_append_ne_empty _ (expanduser sys.home p.filename) _ (by decide)
            · intro r heq
              simp at heq
            · intro r heq
              simp at heq
          · next hden =>
            split at h
            · next me hwl =>
              simp only [Prod.mk.injEq] at h
              obtain ⟨h1, h2⟩ := h
              subst h1
              subst h2
              refine ⟨?_, ?_, ?_, ?_⟩
              · intro msg r heq
                simp at heq
              · intro msg heq
                simp only [Outcome.traceback.injEq] at heq
                obtain ⟨q, hq⟩ := zipWriteLoop_error_shape hwl
                refine ⟨?_, rfl⟩
                rw [← heq, hq]
                exact lit_append_ne_empty _ q _ (by decide)
              · intro r heq
                simp at heq
              · intro r heq
                simp at heq
            · next entries hwl =>
              simp only [Prod.mk.injEq] at h
              obtain ⟨h1, h2⟩ := h
              subst h1
              refine ⟨?_, ?_, ?_, ?_⟩
              · intro msg r heq
                simp at heq
              · intro msg heq
                simp at heq
              · intro r heq hc0
                simp only [Outcome.exitJson.injEq] at heq
                rw [← heq] at hc0
                simp at hc0
              · intro r heq
                simp only [Outcome.exitJson.injEq] at heq
                constructor
                · intro hc1
                  exact ⟨sys1, aps, lvl, entries, rfl, hguardF, hpp, hres, hden, hwl,
                    by rw [← h2]⟩
                · intro hex
                  rw [← heq]

/-- C9 counterexample: with a destination the environment refuses to create
(`/w/out.zip` in `sysDemoDenied`) and `force = true`, the run terminates in
an error exit that is an uncaught exception: it carries a message but not
the echoed parameter record and no `changed` report, contradicting the
claim that every error exit carries both. -/
theorem changed_reporting_counterexample :
    run_module { pDemo with force := true } sysDemoDenied =
      (Outcome.traceback ("[Errno 13] Permission denied: \x27" ++ "out.zip" ++ "\x27"),
        sysDemoDenied) ∧
    carriesResult (run_module { pDemo with force := true } sysDemoDenied).1 = false := by
  exact ⟨by decide, by decide⟩

/-- C9 witness: a forced run against `sysDemo` reports `changed = true`,
witnessing the success condition of the iff. -/
theorem changed_reporting_witness :
    ∃ sys1 d lvl e,
      chdirStep { pDemo with force := true } sysDemo = Except.ok sys1 ∧
      (!({ pDemo with force := true } : Params).force &&
        osExists sys1 (expanduser sysDemo.home
          ({ pDemo with force := true } : Params).filename)) = false ∧
      processPaths sys1 ({ pDemo with force := true } : Params).flatten
        ({ pDemo with force := true } : Params).paths [] = Except.ok d ∧
      resolve_compress_level
        ({ pDemo with force := true } : Params).compress_level = Except.ok lvl ∧
      resolvePath sys1 (expanduser sysDemo.home
        ({ pDemo with force := true } : Params).filename) ∉ sys1.writeDenied ∧
      zipWriteLoop sys1 d [] = Except.ok e ∧
      (run_module { pDemo with force := true } sysDemo).2.files =
        fsWrite sys1.files (resolvePath sys1 (expanduser sysDemo.home
          ({ pDemo with force := true } : Params).filename))
          (Entry.zipArchive e) :=
  ((changed_reporting { pDemo with force := true } sysDemo
      (run_module { pDemo with force := true } sysDemo).1
      (run_module { pDemo with force := true } sysDemo).2 rfl).2.2.2 _ rfl).mp rfl

end ZipModule
